import Mathlib

/-!
Shallow embedding of the SAM repository's asset-selection and download
orchestration core, with theorems checking the natural-language
specification against it.

The embedding covers:
* `Single-exe.py` — the API-based Sobeys/Instacart downloader: language
  selection policies, per-BMN processing, outcome buckets, the batch loop
  with its cancellation flag, the upload/single-entry surface and the
  spreadsheet parser;
* `App.py` — the Amazon pipeline: carousel priority selection and the
  fan-out of one downloaded asset to every ASIN folder.

I/O effects (HTTP fetches, file writes) are modelled by oracle functions
passed as parameters and by explicit lists of performed writes.
-/

namespace SAM

/-- Python's `needle in haystack` substring test, used by the source as
`"NotFound" in error_json.get("title", "")` and
`"amazon" not in retailer_name.lower()`.  `String.splitOn` returns a
singleton exactly when the (non-empty) needle does not occur. -/
def strContains (needle hay : String) : Bool :=
  (hay.splitOn needle).length != 1

/-- Python truthiness of an optional string (`if not save_id: ...`):
`None` and the empty string are falsy. -/
def truthy : Option String → Bool
  | none => false
  | some s => s ≠ ""

/-! ## `Single-exe.py`: data model of the Mojo API response -/

/-- One entry of an asset's `pimRenditions` list. -/
structure Rendition where
  format : String
  url : Option String
deriving DecidableEq

/-- One asset of the Mojo API response body for a BMN
(the fields `process_single_bmn` and the selectors read). -/
structure ApiAsset where
  assetState : String
  packageFacingIndicator : Option String
  languages : List String
  pimRenditions : List Rendition
deriving DecidableEq

/-- `_get_jpg_url`: the `url` of the first rendition whose `format`
lower-cases to `"jpg"` (the source returns `rendition.get('url')`, which
may itself be absent). -/
def getJpgUrl (a : ApiAsset) : Option String :=
  match a.pimRenditions.find? (fun r => r.format.toLower == "jpg") with
  | some r => r.url
  | none => none

/-- `next((a for a in assets if "English" in a['languages'] and
'French-Canadian' not in a['languages']), None)` — a pure-English asset. -/
def isEnglishOnly (a : ApiAsset) : Bool :=
  a.languages.contains "English" && !(a.languages.contains "French-Canadian")

/-- `next((a for a in assets if "French-Canadian" in a['languages']), None)`
— any asset tagged French-Canadian (a Multilingual asset also matches). -/
def isFrenchTagged (a : ApiAsset) : Bool :=
  a.languages.contains "French-Canadian"

/-- `next((a for a in assets if "English" in a['languages'] and
"French-Canadian" in a['languages']), None)` — a Multilingual asset. -/
def isMultilingual (a : ApiAsset) : Bool :=
  a.languages.contains "English" && a.languages.contains "French-Canadian"

/-! ## Sobeys and Instacart selection policies -/

/-- The pure selection part of `_select_and_download_sobeys`
(`Single-exe.py` lines 90–107): the list `assets_to_download` of
(asset, language-code) pairs, in the order the source appends them. -/
def sobeysSelect (assetsForType : List ApiAsset) (assetLabel : String) :
    List (ApiAsset × String) :=
  if assetsForType.isEmpty then []
  else
    let enAsset := assetsForType.find? isEnglishOnly
    let frAsset := assetsForType.find? isFrenchTagged
    let mlAsset := assetsForType.find? isMultilingual
    if assetLabel = "Mobile Hero" then
      (match enAsset with | some a => [(a, "en")] | none => []) ++
      (match frAsset with | some a => [(a, "fr")] | none => [])
    else
      match mlAsset with
      | some a => [(a, "ml")]
      | none =>
        (match enAsset with | some a => [(a, "en")] | none => []) ++
        (match frAsset with | some a => [(a, "fr")] | none => [])

/-- The pure selection part of `_select_and_download_instacart`
(`Single-exe.py` lines 123–131): first pure-English asset, else first
Multilingual asset, else nothing. -/
def instacartSelect (assetsForType : List ApiAsset) : Option ApiAsset :=
  if assetsForType.isEmpty then none
  else
    match assetsForType.find? isEnglishOnly with
    | some a => some a
    | none => assetsForType.find? isMultilingual

/-! ## Filenames and download execution -/

/-- `get_sobeys_filename`. -/
def getSobeysFilename (articleId langCode assetType : String) : String :=
  let assetCode :=
    if assetType = "Mobile Hero" then "left"
    else if assetType = "Front - 3D" then "front"
    else if assetType = "Ingredients" then "ing"
    else if assetType = "Nutrition" then "nfp"
    else "na"
  if assetType = "Mobile Hero" then
    articleId ++ "_EA_" ++ langCode ++ "_na_" ++ assetCode ++ "_na.jpg"
  else if assetType = "Front - 3D" then
    articleId ++ "_EA_" ++ langCode ++ "_primary_" ++ assetCode ++ "_na.jpg"
  else
    articleId ++ "_EA_" ++ langCode ++ "_na_na_" ++ assetCode ++ ".jpg"

/-- `get_instacart_filename`. -/
def getInstacartFilename (gtin assetType : String) : String :=
  let suffix :=
    if assetType = "Mobile Hero" then "main"
    else if assetType = "Left Front - 3D" then "sideleft"
    else if assetType = "Right Front - 3D" then "sideright"
    else if assetType = "Ingredients" then "ing"
    else if assetType = "Nutrition" then "nut"
    else "na"
  gtin ++ "-" ++ suffix ++ ".jpg"

/-- One file persisted to disk: its path and the URL whose bytes were
written there (`save_image_from_url(url, file_path)`). -/
structure FileWrite where
  path : String
  srcUrl : String
deriving DecidableEq

/-- The download loop of `_select_and_download_sobeys` (lines 109–121):
for each selected (asset, lang) pair, look up the JPG URL (skip if
absent), build the filename and attempt the download; `dlOk url` is the
success of `save_image_from_url`.  Returns `download_succeeded` plus the
files written. -/
def sobeysDownload (dlOk : String → Bool) (assetsForType : List ApiAsset)
    (assetLabel articleId downloadFolder : String) : Bool × List FileWrite :=
  (sobeysSelect assetsForType assetLabel).foldl
    (fun acc it =>
      match getJpgUrl it.1 with
      | none => acc
      | some url =>
        let filename := getSobeysFilename articleId it.2 assetLabel
        if dlOk url then
          (true, acc.2 ++ [⟨downloadFolder ++ "/" ++ filename, url⟩])
        else acc)
    (false, [])

/-- The download part of `_select_and_download_instacart` (lines
131–140). -/
def instacartDownload (dlOk : String → Bool) (assetsForType : List ApiAsset)
    (assetLabel gtin downloadFolder : String) : Bool × List FileWrite :=
  match instacartSelect assetsForType with
  | none => (false, [])
  | some chosen =>
    match getJpgUrl chosen with
    | none => (false, [])
    | some url =>
      let filename := getInstacartFilename gtin assetLabel
      if dlOk url then (true, [⟨downloadFolder ++ "/" ++ filename, url⟩])
      else (false, [])

/-! ## Retailer configuration (`RETAILER_CONFIGS`) -/

inductive Retailer
  | sobeys
  | instacart
deriving DecidableEq

/-- `asset_types` of each retailer config: (label, grouping keyword)
pairs, in dict order. -/
def assetTypes : Retailer → List (String × String)
  | .sobeys =>
      [("Mobile Hero", "Mobile Hero"), ("Front - 3D", "Front - 3D"),
       ("Ingredients", "Ingredients"), ("Nutrition", "Nutrition")]
  | .instacart =>
      [("Mobile Hero", "Mobile Hero"), ("Left Front - 3D", "Left Front - 3D"),
       ("Right Front - 3D", "Right Front - 3D"), ("Ingredients", "Ingredients"),
       ("Nutrition", "Nutrition")]

/-- `download_folder` of each retailer config. -/
def retailerFolder : Retailer → String
  | .sobeys => "C:/Downloads/Sobeys"
  | .instacart => "C:/Downloads/Instacart"

/-- One input item (`item_data`): the dict built by the parser or the
single-entry form.  Fields absent from the dict are `none`. -/
structure Item where
  bmn : String
  articleId : Option String
  gtin : Option String
deriving DecidableEq

/-- `item_data.get(config['save_id_key'])`. -/
def saveIdField : Retailer → Item → Option String
  | .sobeys, item => item.articleId
  | .instacart, item => item.gtin

/-! ## Per-item processing -/

/-- `grouped_assets.get(keyword, [])` where `grouped_assets` maps each
truthy `packageFacingIndicator` to the `Current` assets carrying it, in
response order. -/
def groupedGet (validAssets : List ApiAsset) (keyword : String) :
    List ApiAsset :=
  validAssets.filter fun a =>
    match a.packageFacingIndicator with
    | some s => s ≠ "" && s == keyword
    | none => false

/-- `_process_item_for_retailer` (lines 159–174): skip the retailer when
the save identifier is missing/empty; otherwise run the retailer's
download function over each configured asset type.  Returns
`item_succeeded` plus the files written. -/
def processItemForRetailer (dlOk : String → Bool) (retailer : Retailer)
    (item : Item) (validAssets : List ApiAsset) : Bool × List FileWrite :=
  let saveIdO := saveIdField retailer item
  if !(truthy saveIdO) then (false, [])
  else
    let saveId := saveIdO.getD ""
    (assetTypes retailer).foldl
      (fun acc lk =>
        let assetsForType := groupedGet validAssets lk.2
        let res :=
          match retailer with
          | .sobeys =>
            sobeysDownload dlOk assetsForType lk.1 saveId
              (retailerFolder retailer)
          | .instacart =>
            instacartDownload dlOk assetsForType lk.1 saveId
              (retailerFolder retailer)
        (acc.1 || res.1, acc.2 ++ res.2))
      (false, [])

/-- Result of the `requests.get` on the Mojo API for a BMN, as
`process_single_bmn` inspects it.  `httpError` is a non-OK response with
its status code and, when the body parsed as JSON, the `title` field;
`netError` is a `RequestException`; `ok assets` is an OK response whose
body's `assets` list is `assets` (a missing `assets` key behaves exactly
like an empty list in the source and is modelled as `[]`). -/
inductive FetchResult
  | httpError (status : Nat) (jsonTitle : Option String)
  | netError
  | ok (assets : List ApiAsset)
deriving DecidableEq

/-- The two outcome buckets `process_single_bmn` appends to:
`execution_status['not_in_mojo_bmns']` and
`execution_status['restricted_bmns']`. -/
structure Buckets where
  notInMojo : List String
  restricted : List String
deriving DecidableEq

/-- The `for retailer_name in retailers_to_process` loop at the end of
`process_single_bmn` (lines 232–236): accumulates
`any_retailer_succeeded` and the files written; it never touches the
outcome buckets. -/
def processRetailers (dlOk : String → Bool) (retailers : List Retailer)
    (item : Item) (validAssets : List ApiAsset) : Bool × List FileWrite :=
  retailers.foldl
    (fun acc r =>
      let res := processItemForRetailer dlOk r item validAssets
      (acc.1 || res.1, acc.2 ++ res.2))
    (false, [])

/-- `process_single_bmn` (lines 176–237): fetch the BMN's asset list,
classify Not-Found / restricted cases into the buckets, filter to
`Current` assets and run every selected retailer.  Returns
(`any_retailer_succeeded`, updated buckets, files written). -/
def processSingleBmn (fetch : String → FetchResult) (dlOk : String → Bool)
    (retailers : List Retailer) (item : Item) (b : Buckets) :
    Bool × Buckets × List FileWrite :=
  let bmn := item.bmn
  match fetch bmn with
  | .httpError status jsonTitle =>
    let isNotFound := status == 500 &&
      (match jsonTitle with
       | some t => strContains "NotFound" t
       | none => false)
    if isNotFound then
      (false, { b with notInMojo := b.notInMojo ++ [bmn] }, [])
    else (false, b, [])
  | .netError => (false, b, [])
  | .ok assets =>
    if assets.isEmpty then
      (false, { b with notInMojo := b.notInMojo ++ [bmn] }, [])
    else if assets.any (fun a => a.assetState == "Restricted") then
      (false, { b with restricted := b.restricted ++ [bmn] }, [])
    else
      let validAssets := assets.filter fun a => a.assetState == "Current"
      if validAssets.isEmpty then (false, b, [])
      else
        let r := processRetailers dlOk retailers item validAssets
        (r.1, b, r.2)

/-! ## The batch loop (`process_all_items`) and cancellation -/

/-- Trace record of one `process_single_bmn` call made by the batch
loop: the 1-based loop index `i`, the item's BMN, the (discarded)
returned success flag and the files it wrote. -/
structure ProcessedEntry where
  index : Nat
  bmn : String
  succeeded : Bool
  files : List FileWrite
deriving DecidableEq

/-- The run state the loop mutates: the `execution_status` counters and
buckets, all files written so far, and the trace of per-item calls. -/
structure RunState where
  totalItems : Nat
  completedItems : Nat
  buckets : Buckets
  files : List FileWrite
  processed : List ProcessedEntry
deriving DecidableEq

/-- The `for i, item_data in enumerate(search_data, 1)` loop of
`process_all_items` (lines 248–262).  `runningAt i` is the value of the
shared `execution_status['running']` flag as observed by the check at the
top of iteration `i`; when it is false the loop breaks before processing
that item. -/
def runLoop (fetch : String → FetchResult) (dlOk : String → Bool)
    (retailers : List Retailer) (runningAt : Nat → Bool) :
    Nat → List Item → RunState → RunState
  | _, [], st => st
  | i, item :: rest, st =>
    if !(runningAt i) then st
    else
      let r := processSingleBmn fetch dlOk retailers item st.buckets
      let st' : RunState :=
        { st with
          buckets := r.2.1
          files := st.files ++ r.2.2
          completedItems := i
          processed := st.processed ++ [⟨i, item.bmn, r.1, r.2.2⟩] }
      runLoop fetch dlOk retailers runningAt (i + 1) rest st'

/-- `process_all_items` (lines 240–280): initialise the counters and run
the loop over all items.  The final summary emitted to the frontend is
exactly the pair (`not_in_mojo_bmns` as `failed_bmns`,
`restricted_bmns`) of the resulting state's buckets. -/
def processAllItems (fetch : String → FetchResult) (dlOk : String → Bool)
    (retailers : List Retailer) (items : List Item)
    (runningAt : Nat → Bool) : RunState :=
  runLoop fetch dlOk retailers runningAt 1 items
    { totalItems := items.length
      completedItems := 0
      buckets := ⟨[], []⟩
      files := []
      processed := [] }

/-- `/stop` route (`stop_execution`, lines 403–408): clear the running
flag when set.  Returns (new flag value, request succeeded). -/
def stopExecution (running : Bool) : Bool × Bool :=
  if running then (false, true) else (running, false)

/-- The single-entry branch of the `/execute` route (`execute_download`,
lines 359–400) when no file is uploaded: reject when a task is already
running or the BMN form field is falsy; otherwise accept, producing the
one-item batch `[{'bmn': bmn, 'article_id': article_id, 'gtin': gtin}]`
with no required-column validation of `article_id`/`gtin`. -/
def executeSingleEntry (running : Bool)
    (bmn articleId gtin : Option String) : Except String (List Item) :=
  if running then .error "Another task is already running"
  else if !(truthy bmn) then .error "BMN is required for single entry."
  else .ok [{ bmn := bmn.getD "", articleId := articleId, gtin := gtin }]

/-! ## The spreadsheet parser (`parse_search_ids_from_file`) -/

/-- One parsed row of the uploaded table (after `pd.read_*(dtype=str)`
and header normalisation).  `none` is a NaN cell (an empty spreadsheet
cell); present cells are their string values. -/
structure Row where
  bmn : Option String
  articleId : Option String
  gtin : Option String
deriving DecidableEq

/-- `str(row.get(col, ''))` for a present column: pandas turns an empty
cell into NaN and `str(nan)` is the string `"nan"`. -/
def cellStr : Option String → String
  | some s => s
  | none => "nan"

/-- Python `str.strip()`: drop leading and trailing whitespace.  It is
modelled over the character list so that it evaluates by kernel
reduction (`String.trim` is defined by well-founded recursion). -/
def pyStrip (s : String) : String :=
  ⟨((s.data.dropWhile Char.isWhitespace).reverse.dropWhile
      Char.isWhitespace).reverse⟩

/-- `str(row.get('BMN', '')).strip()`. -/
def rowBmn (r : Row) : String := pyStrip (cellStr r.bmn)

/-- The item dict built for one accepted row (lines 336–340): the
`article_id` / `gtin` keys are present only when the retailer mode
requires those columns. -/
def mkItem (needArticle needGtin : Bool) (r : Row) : Item :=
  { bmn := rowBmn r
    articleId :=
      if needArticle then some (pyStrip (cellStr r.articleId)) else none
    gtin := if needGtin then some (pyStrip (cellStr r.gtin)) else none }

/-- The data-extraction loop of `parse_search_ids_from_file` (lines
329–343): `seen` is the `seen_bmns` set (as the list of its insertions)
and `acc` the `search_data` list. -/
def parseLoop (needArticle needGtin : Bool) :
    List Row → List String → List Item → List Item
  | [], _, acc => acc
  | r :: rest, seen, acc =>
    let bmn := rowBmn r
    if bmn = "" ∨ bmn = "nan" ∨ bmn ∈ seen then
      parseLoop needArticle needGtin rest seen acc
    else
      parseLoop needArticle needGtin rest (seen ++ [bmn])
        (acc ++ [mkItem needArticle needGtin r])

/-- The clean identifier list returned by `parse_search_ids_from_file`. -/
def parseSearchData (needArticle needGtin : Bool) (rows : List Row) :
    List Item :=
  parseLoop needArticle needGtin rows [] []

/-- `df['BMN'].dropna()`: the raw BMN column with NaN cells dropped
(duplicate detection runs on these raw values, before `str`/`strip`). -/
def bmnValues (rows : List Row) : List String := rows.filterMap Row.bmn

/-- `duplicates['duplicate_bmns'] = bmn_counts[bmn_counts > 1].index.tolist()`
(lines 319–321): the distinct BMN values occurring more than once.
`value_counts` orders its index by descending frequency; the claims only
concern which values are reported and how many, so the report is
modelled in first-occurrence order of the distinct values. -/
def duplicateBmns (rows : List Row) : List String :=
  (bmnValues rows).dedup.filter fun v => 1 < (bmnValues rows).count v

/-! ## `App.py`: carousel priority selection (`download_carousel_images`) -/

/-- The metadata read off one grid item of the carousel search results:
`priority` is the Carousel Priority chip parsed as an int (`none` when
the metadata lookup raises and the loop `continue`s), `retailer` the
`RetailerToAsset` field text when that container is visible. -/
structure CarouselItem where
  priority : Option Nat
  retailer : Option String
deriving DecidableEq

/-- The retailer gate (lines 313–322): an item is disqualified exactly
when a retailer field is visible and `"amazon" not in
retailer_name.lower()`. -/
def amazonOk : Option String → Bool
  | none => true
  | some r => strContains "amazon" r.toLower

/-- The mutable state of `download_carousel_images`:
`downloads_succeeded`, `max_sequence_num`, `downloaded_priorities`
(a set, modelled as the list of its insertions). -/
structure CarouselState where
  downloadsSucceeded : Nat
  maxSequenceNum : Nat
  downloadedPriorities : List Nat
deriving DecidableEq

/-- The body of the per-item loop (lines 294–363) for one grid item:
skip on metadata failure; compute `should_download` from the retailer
gate and the already-downloaded priorities; when downloading, update
`max_sequence_num` first (even if the download then fails, exactly as in
the source) and record the priority only on success (`dlOk`). -/
def carouselStep (dlOk : Bool) (st : CarouselState) (it : CarouselItem) :
    CarouselState :=
  match it.priority with
  | none => st
  | some p =>
    let shouldDownload :=
      amazonOk it.retailer && !(st.downloadedPriorities.contains p)
    if !shouldDownload then st
    else
      let st1 := { st with maxSequenceNum := max st.maxSequenceNum p }
      if dlOk then
        { st1 with
          downloadsSucceeded := st1.downloadsSucceeded + 1
          downloadedPriorities := st1.downloadedPriorities ++ [p] }
      else st1

/-- The per-item loop with its cancellation check: `runningAt i` is the
`execution_status['running']` value observed at the top of iteration `i`
(1-based); `dlOk i` is whether iteration `i`'s download attempt
succeeds. -/
def carouselLoop (dlOk runningAt : Nat → Bool) :
    Nat → List CarouselItem → CarouselState → CarouselState
  | _, [], st => st
  | i, it :: rest, st =>
    if !(runningAt i) then st
    else carouselLoop dlOk runningAt (i + 1) rest (carouselStep (dlOk i) st it)

/-- `download_carousel_images` (lines 248–367): the flag check at entry
(observation 0) and the loop over the grid items.  Returns the final
(`downloads_succeeded`, `max_sequence_num`, `downloaded_priorities`)
state. -/
def downloadCarouselImages (dlOk runningAt : Nat → Bool)
    (items : List CarouselItem) : CarouselState :=
  if !(runningAt 0) then ⟨0, 0, []⟩
  else carouselLoop dlOk runningAt 1 items ⟨0, 0, []⟩

/-- `nutrition_sequence = max_carousel_seq + 1`
(`process_single_gtin`, line 485). -/
def nutritionSequence (st : CarouselState) : Nat := st.maxSequenceNum + 1

/-! ## `App.py`: fan-out to ASIN folders (`save_to_all_asin_folders`) -/

/-- `DOWNLOAD_FOLDER` of `App.py`. -/
def amazonDownloadFolder : String := "C:/Downloads/Amazon"

/-- `f"{n:02d}"`. -/
def pad2 (n : Nat) : String :=
  if n < 10 then "0" ++ toString n else toString n

/-- The filename built per ASIN (lines 234–239):
`{asin}.PT{seq:02d}.jpeg` when a sequence number is given, else
`{asin}.{filename_pattern}.jpeg` (an f-string renders a `None` pattern
as the text `"None"`; no caller produces that combination). -/
def asinFilename (asin : String) (filenamePattern : Option String)
    (sequenceNum : Option Nat) : String :=
  match sequenceNum with
  | some n => asin ++ ".PT" ++ pad2 n ++ ".jpeg"
  | none =>
    asin ++ "." ++
      (match filenamePattern with | some p => p | none => "None") ++ ".jpeg"

/-- The destination path for one ASIN: `create_asin_folders` puts each
ASIN's folder at `DOWNLOAD_FOLDER/asin` and the file is saved inside it
(the path join is modelled with a fixed separator). -/
def asinDestPath (asin : String) (filenamePattern : Option String)
    (sequenceNum : Option Nat) : String :=
  amazonDownloadFolder ++ "/" ++ asin ++ "/" ++
    asinFilename asin filenamePattern sequenceNum

/-- A write of one already-downloaded payload to a destination path
(`await download.save_as(file_path)`). -/
structure SavedFile where
  path : String
  content : String
deriving DecidableEq

/-- `save_to_all_asin_folders` (lines 228–245): the single `download`
object (its payload modelled by the abstract `content` string, fetched
once by the caller's `expect_download`) is saved to every ASIN's folder;
`saved_files` is returned in ASIN order. -/
def saveToAllAsinFolders (content : String) (asins : List String)
    (filenamePattern : Option String) (sequenceNum : Option Nat) :
    List SavedFile :=
  asins.map fun asin =>
    ⟨asinDestPath asin filenamePattern sequenceNum, content⟩

/-- The part of `asinFilename` that does not depend on the ASIN:
`asinFilename asin p s = asin ++ asinFilenameTail p s`. -/
def asinFilenameTail (filenamePattern : Option String)
    (sequenceNum : Option Nat) : String :=
  match sequenceNum with
  | some n => ".PT" ++ pad2 n ++ ".jpeg"
  | none =>
    "." ++ (match filenamePattern with | some p => p | none => "None") ++
      ".jpeg"

/-! ## Derived predicates used to state the theorems -/

/-- The branch condition under which `process_single_bmn` classifies an
item as restricted: the fetch returned an OK body with a non-empty
asset list containing a `Restricted`-state asset. -/
def restrictedOutcome (fetch : String → FetchResult) (item : Item) : Bool :=
  match fetch item.bmn with
  | .ok assets =>
    !assets.isEmpty && assets.any (fun a => a.assetState == "Restricted")
  | _ => false

/-- The carousel selection as the spec words it: keep the first
occurrence of each priority value, drop later duplicates at a priority
already in `seen`. -/
def specFirstSeen (seen : List Nat) : List Nat → List Nat
  | [] => []
  | p :: ps =>
    if p ∈ seen then specFirstSeen seen ps
    else p :: specFirstSeen (seen ++ [p]) ps

/-! ## Concrete fixtures for the witnesses and counterexamples -/

/-- A pure-English `Mobile Hero` asset with a JPG rendition. -/
def enHero : ApiAsset :=
  { assetState := "Current", packageFacingIndicator := some "Mobile Hero",
    languages := ["English"], pimRenditions := [⟨"jpg", some "urlEn"⟩] }

/-- A French-only `Mobile Hero` asset with a JPG rendition. -/
def frHero : ApiAsset :=
  { assetState := "Current", packageFacingIndicator := some "Mobile Hero",
    languages := ["French-Canadian"], pimRenditions := [⟨"jpg", some "urlFr"⟩] }

/-- A Multilingual (English and French-Canadian) `Mobile Hero` asset. -/
def mlHero : ApiAsset :=
  { assetState := "Current", packageFacingIndicator := some "Mobile Hero",
    languages := ["English", "French-Canadian"],
    pimRenditions := [⟨"jpg", some "urlMl"⟩] }

/-- A `Restricted`-state asset. -/
def restrictedAsset : ApiAsset :=
  { assetState := "Restricted", packageFacingIndicator := none,
    languages := [], pimRenditions := [] }

/-- An asset in a non-`Current`, non-`Restricted` state. -/
def archivedAsset : ApiAsset :=
  { assetState := "Archived", packageFacingIndicator := none,
    languages := [], pimRenditions := [] }

/-- Three spreadsheet rows carrying the same BMN value. -/
def tripleRows : List Row :=
  [⟨some "a", none, none⟩, ⟨some "a", none, none⟩, ⟨some "a", none, none⟩]

/-- Parser fixture: a duplicate BMN (after strip), a `"nan"` BMN and an
empty (NaN) BMN among valid rows. -/
def parserRows : List Row :=
  [⟨some " 1 ", some "A", none⟩, ⟨some "1", some "B", none⟩,
   ⟨some "nan", some "C", none⟩, ⟨none, some "D", none⟩,
   ⟨some "2", some "E", none⟩]

/-- A three-item batch fixture. -/
def itemsFixture : List Item :=
  [⟨"1", some "A", none⟩, ⟨"2", some "B", none⟩, ⟨"3", some "C", none⟩]

/-- The carousel example from the spec: priorities `[1,1,3,2]`, no
retailer restrictions. -/
def carouselFixture : List CarouselItem :=
  [⟨some 1, none⟩, ⟨some 1, none⟩, ⟨some 3, none⟩, ⟨some 2, none⟩]

/-! # Theorems -/

/-- Unfolding of the pure-English test. -/
theorem isEnglishOnly_iff (a : ApiAsset) :
    isEnglishOnly a = true ↔
      "English" ∈ a.languages ∧ "French-Canadian" ∉ a.languages := by
  simp [isEnglishOnly]

/-- Unfolding of the French-tagged test. -/
theorem isFrenchTagged_iff (a : ApiAsset) :
    isFrenchTagged a = true ↔ "French-Canadian" ∈ a.languages := by
  simp [isFrenchTagged]

/-- Unfolding of the Multilingual test. -/
theorem isMultilingual_iff (a : ApiAsset) :
    isMultilingual a = true ↔
      "English" ∈ a.languages ∧ "French-Canadian" ∈ a.languages := by
  simp [isMultilingual]

/-- C1, counterexample: a candidate set whose only member is Multilingual
does NOT give an empty hero-slot selection — the Multilingual asset
matches the French lookup (`"French-Canadian" in a['languages']`) and is
selected as the `fr` download, so a Multilingual candidate can be chosen
for the hero slot. -/
theorem sobeys_hero_multilingual_chosen :
    sobeysSelect [mlHero] "Mobile Hero" = [(mlHero, "fr")] ∧
    sobeysSelect [mlHero] "Mobile Hero" ≠ [] := by
  constructor
  · decide
  · decide

/-- C1, amended: for the hero slot the first pure-English candidate and
the first French-Canadian-tagged candidate are each selected when both
are present; the French pick is any asset tagged French-Canadian, so a
candidate set whose only member is Multilingual yields that asset
selected once as the `fr` download; and the hero selection never uses
the Multilingual (`ml`) language code. -/
theorem sobeys_hero_selection (assets : List ApiAsset) (e f : ApiAsset)
    (he : assets.find? isEnglishOnly = some e)
    (hf : assets.find? isFrenchTagged = some f) :
    sobeysSelect assets "Mobile Hero" = [(e, "en"), (f, "fr")] ∧
    (∀ a : ApiAsset, isMultilingual a = true →
      sobeysSelect [a] "Mobile Hero" = [(a, "fr")]) ∧
    (∀ (l : List ApiAsset) (p : ApiAsset × String),
      p ∈ sobeysSelect l "Mobile Hero" → p.2 ≠ "ml") := by
  refine ⟨?_, ?_, ?_⟩
  · have hne : assets.isEmpty = false := by
      cases assets with
      | nil => simp at he
      | cons a l => rfl
    simp [sobeysSelect, hne, he, hf]
  · intro a ha
    have h12 := (isMultilingual_iff a).1 ha
    have hEO : isEnglishOnly a = false := by
      rw [← Bool.not_eq_true, isEnglishOnly_iff]
      exact fun hcon => hcon.2 h12.2
    have hFT : isFrenchTagged a = true := (isFrenchTagged_iff a).2 h12.2
    simp [sobeysSelect, List.find?, hEO, hFT]
  · intro l p hp
    unfold sobeysSelect at hp
    by_cases hl : l.isEmpty = true
    · simp [hl] at hp
    · simp only [Bool.not_eq_true] at hl
      cases hE : l.find? isEnglishOnly with
      | none =>
        cases hF : l.find? isFrenchTagged with
        | none => simp [hl, hE, hF] at hp
        | some f' =>
          simp [hl, hE, hF] at hp
          subst hp
          show ("fr" : String) ≠ "ml"
          decide
      | some e' =>
        cases hF : l.find? isFrenchTagged with
        | none =>
          simp [hl, hE, hF] at hp
          subst hp
          show ("en" : String) ≠ "ml"
          decide
        | some f' =>
          simp [hl, hE, hF] at hp
          rcases hp with h | h
          · subst h
            show ("en" : String) ≠ "ml"
            decide
          · subst h
            show ("fr" : String) ≠ "ml"
            decide

/-- C1 witness: with a pure-English and a French-only hero candidate,
both are selected individually. -/
theorem sobeys_hero_selection_both_languages :
    [enHero, frHero].find? isEnglishOnly = some enHero ∧
    sobeysSelect [enHero, frHero] "Mobile Hero" =
      [(enHero, "en"), (frHero, "fr")] :=
  ⟨by decide,
   (sobeys_hero_selection [enHero, frHero] enHero frHero (by decide)
      (by decide)).1⟩

/-- C4: the Instacart single-best policy selects at most one asset —
the selected asset is a candidate that is pure-English or Multilingual,
a Multilingual pick implies no pure-English candidate existed, a
pure-English candidate guarantees a pure-English pick, a French-only
candidate set selects nothing, and the download step writes at most one
file per slot. -/
theorem instacart_single_best (assets : List ApiAsset) :
    (∀ a : ApiAsset, instacartSelect assets = some a →
      a ∈ assets ∧ (isEnglishOnly a = true ∨ isMultilingual a = true) ∧
      (isMultilingual a = true → ∀ b ∈ assets, isEnglishOnly b = false)) ∧
    ((∃ b ∈ assets, isEnglishOnly b = true) →
      ∃ c, instacartSelect assets = some c ∧ isEnglishOnly c = true) ∧
    ((∀ a ∈ assets, "French-Canadian" ∈ a.languages ∧
        "English" ∉ a.languages) →
      instacartSelect assets = none) ∧
    (∀ (dlOk : String → Bool) (label gtin folder : String),
      (instacartDownload dlOk assets label gtin folder).2.length ≤ 1) := by
  refine ⟨?_, ?_, ?_, ?_⟩
  · intro a h
    unfold instacartSelect at h
    by_cases hne : assets.isEmpty = true
    · simp [hne] at h
    · simp only [Bool.not_eq_true] at hne
      cases hE : assets.find? isEnglishOnly with
      | some e =>
        rw [hne, hE] at h
        simp at h
        subst h
        refine ⟨List.mem_of_find?_eq_some hE, Or.inl (List.find?_some hE), ?_⟩
        intro hm
        exact absurd ((isMultilingual_iff e).1 hm).2
          ((isEnglishOnly_iff e).1 (List.find?_some hE)).2
      | none =>
        rw [hne, hE] at h
        simp at h
        refine ⟨List.mem_of_find?_eq_some h, Or.inr (List.find?_some h), ?_⟩
        intro _ b hb
        have := List.find?_eq_none.1 hE b hb
        simpa using this
  · rintro ⟨b, hb, hEb⟩
    have hne : assets.isEmpty = false := by
      cases assets with
      | nil => simp at hb
      | cons x l => rfl
    cases hE : assets.find? isEnglishOnly with
    | none => exact absurd hEb (by simpa using List.find?_eq_none.1 hE b hb)
    | some c =>
      refine ⟨c, ?_, List.find?_some hE⟩
      simp [instacartSelect, hne, hE]
  · intro hall
    have hE : assets.find? isEnglishOnly = none := by
      rw [List.find?_eq_none]
      intro x hx
      rw [Bool.not_eq_true, ← Bool.not_eq_true, isEnglishOnly_iff]
      exact fun hcon => (hall x hx).2 hcon.1
    have hM : assets.find? isMultilingual = none := by
      rw [List.find?_eq_none]
      intro x hx
      rw [Bool.not_eq_true, ← Bool.not_eq_true, isMultilingual_iff]
      exact fun hcon => (hall x hx).2 hcon.1
    unfold instacartSelect
    split
    · rfl
    · rw [hE, hM]
  · intro dlOk label gtin folder
    unfold instacartDownload
    split
    · simp
    · split
      · simp
      · split <;> simp

/-- C4 witness: a French-only candidate set selects nothing. -/
theorem instacart_single_best_french_only :
    instacartSelect [frHero] = none :=
  (instacart_single_best [frHero]).2.2.1 (by decide)

/-- The parse loop's accumulator only collects output at the front. -/
theorem parseLoop_append (na ng : Bool) (rows : List Row) :
    ∀ (seen : List String) (acc : List Item),
      parseLoop na ng rows seen acc = acc ++ parseLoop na ng rows seen [] := by
  induction rows with
  | nil => intro seen acc; simp [parseLoop]
  | cons r rest ih =>
    intro seen acc
    by_cases h : rowBmn r = "" ∨ rowBmn r = "nan" ∨ rowBmn r ∈ seen
    · simp only [parseLoop]
      rw [if_pos h, if_pos h, ih]
    · simp only [parseLoop]
      rw [if_neg h, if_neg h, ih _ (acc ++ _), ih _ ([] ++ _)]
      simp

/-- Every item produced by the parse loop has a valid BMN outside `seen`
and comes from the first row of the input bearing that BMN. -/
theorem parseLoop_mem (na ng : Bool) (rows : List Row) :
    ∀ (seen : List String), ∀ it ∈ parseLoop na ng rows seen [],
      (it.bmn ≠ "" ∧ it.bmn ≠ "nan" ∧ it.bmn ∉ seen) ∧
      ∃ l1 r l2, rows = l1 ++ r :: l2 ∧ it = mkItem na ng r ∧
        ∀ r' ∈ l1, rowBmn r' ≠ it.bmn := by
  induction rows with
  | nil => intro seen it hit; simp [parseLoop] at hit
  | cons r rest ih =>
    intro seen it hit
    simp only [parseLoop] at hit
    by_cases h : rowBmn r = "" ∨ rowBmn r = "nan" ∨ rowBmn r ∈ seen
    · rw [if_pos h] at hit
      obtain ⟨⟨h1, h2, h3⟩, l1, r', l2, hsplit, hitem, hfirst⟩ := ih seen it hit
      refine ⟨⟨h1, h2, h3⟩, r :: l1, r', l2,
        by rw [hsplit, List.cons_append], hitem, ?_⟩
      intro r'' hr''
      rw [List.mem_cons] at hr''
      rcases hr'' with rfl | hr''
      · rcases h with h | h | h
        · rw [h]; exact fun hc => h1 hc.symm
        · rw [h]; exact fun hc => h2 hc.symm
        · exact fun hc => h3 (hc ▸ h)
      · exact hfirst r'' hr''
    · rw [if_neg h] at hit
      rw [parseLoop_append] at hit
      push_neg at h
      obtain ⟨h1, h2, h3⟩ := h
      simp only [List.nil_append, List.singleton_append, List.mem_cons] at hit
      rcases hit with hit | hit
      · subst hit
        exact ⟨⟨h1, h2, h3⟩, [], r, rest, rfl, rfl, by simp⟩
      · obtain ⟨⟨g1, g2, g3⟩, l1, r', l2, hsplit, hitem, hfirst⟩ :=
          ih (seen ++ [rowBmn r]) it hit
        have g3' : it.bmn ∉ seen ∧ it.bmn ≠ rowBmn r := by
          constructor
          · exact fun hc => g3 (List.mem_append_left _ hc)
          · exact fun hc => g3 (by simp [hc])
        refine ⟨⟨g1, g2, g3'.1⟩, r :: l1, r', l2,
          by rw [hsplit, List.cons_append], hitem, ?_⟩
        intro r'' hr''
        rw [List.mem_cons] at hr''
        rcases hr'' with rfl | hr''
        · exact fun hc => g3'.2 hc.symm
        · exact hfirst r'' hr''

/-- The parse loop never emits the same BMN twice. -/
theorem parseLoop_nodup (na ng : Bool) (rows : List Row) :
    ∀ (seen : List String),
      ((parseLoop na ng rows seen []).map Item.bmn).Nodup := by
  induction rows with
  | nil => intro seen; simp [parseLoop]
  | cons r rest ih =>
    intro seen
    simp only [parseLoop]
    by_cases h : rowBmn r = "" ∨ rowBmn r = "nan" ∨ rowBmn r ∈ seen
    · rw [if_pos h]; exact ih seen
    · rw [if_neg h, parseLoop_append]
      simp only [List.nil_append, List.singleton_append, List.map_cons,
        List.nodup_cons]
      refine ⟨?_, ih (seen ++ [rowBmn r])⟩
      intro hc
      obtain ⟨it, hit, hbmn⟩ := List.mem_map.1 hc
      have := (parseLoop_mem na ng rest (seen ++ [rowBmn r]) it hit).1.2.2
      have hmk : (mkItem na ng r).bmn = rowBmn r := rfl
      rw [hmk] at hbmn
      exact this (by simp [hbmn])

/-- Every row with a valid BMN not yet seen contributes its BMN to the
parse loop's output. -/
theorem parseLoop_complete (na ng : Bool) (rows : List Row) :
    ∀ (seen : List String), ∀ r ∈ rows,
      rowBmn r ≠ "" → rowBmn r ≠ "nan" →
      rowBmn r ∈ seen ∨
        rowBmn r ∈ (parseLoop na ng rows seen []).map Item.bmn := by
  induction rows with
  | nil => intro seen r hr; simp at hr
  | cons r0 rest ih =>
    intro seen r hr h1 h2
    rw [List.mem_cons] at hr
    simp only [parseLoop]
    by_cases h : rowBmn r0 = "" ∨ rowBmn r0 = "nan" ∨ rowBmn r0 ∈ seen
    · rw [if_pos h]
      rcases hr with rfl | hr
      · rcases h with h | h | h
        · exact absurd h h1
        · exact absurd h h2
        · exact Or.inl h
      · exact ih seen r hr h1 h2
    · rw [if_neg h, parseLoop_append]
      rcases hr with rfl | hr
      · right
        simp only [List.nil_append, List.singleton_append, List.map_cons]
        exact List.mem_cons_self _ _
      · rcases ih (seen ++ [rowBmn r0]) r hr h1 h2 with hin | hin
        · rcases List.mem_append.1 hin with hin | hin
          · exact Or.inl hin
          · right
            simp only [List.nil_append, List.singleton_append, List.map_cons]
            have : rowBmn r = rowBmn r0 := by simpa using hin
            rw [this]
            exact List.mem_cons_self _ _
        · right
          simp only [List.nil_append, List.singleton_append, List.map_cons]
          exact List.mem_cons_of_mem _ hin

/-- C6: the parsed identifier list contains each BMN at most once, every
produced item has a non-empty, non-`"nan"` BMN, every produced item is
built from the first input row bearing its BMN (first occurrence wins),
and every row with a valid BMN is represented in the output. -/
theorem parser_dedup (na ng : Bool) (rows : List Row) :
    ((parseSearchData na ng rows).map Item.bmn).Nodup ∧
    (∀ it ∈ parseSearchData na ng rows, it.bmn ≠ "" ∧ it.bmn ≠ "nan") ∧
    (∀ it ∈ parseSearchData na ng rows, ∃ l1 r l2,
      rows = l1 ++ r :: l2 ∧ it = mkItem na ng r ∧
      ∀ r' ∈ l1, rowBmn r' ≠ it.bmn) ∧
    (∀ r ∈ rows, rowBmn r ≠ "" → rowBmn r ≠ "nan" →
      rowBmn r ∈ (parseSearchData na ng rows).map Item.bmn) := by
  refine ⟨parseLoop_nodup na ng rows [], ?_, ?_, ?_⟩
  · intro it hit
    exact ⟨(parseLoop_mem na ng rows [] it hit).1.1,
      (parseLoop_mem na ng rows [] it hit).1.2.1⟩
  · intro it hit
    exact (parseLoop_mem na ng rows [] it hit).2
  · intro r hr h1 h2
    rcases parseLoop_complete na ng rows [] r hr h1 h2 with hin | hin
    · simp at hin
    · exact hin

/-- C6 witness: on a fixture with a stripped duplicate, a `"nan"` BMN
and an empty cell, the second duplicate row's Article ID loses to the
first occurrence. -/
theorem parser_dedup_fixture :
    rowBmn ⟨some "2", some "E", none⟩ ∈
      (parseSearchData true false parserRows).map Item.bmn :=
  (parser_dedup true false parserRows).2.2.2 ⟨some "2", some "E", none⟩
    (by decide) (by decide) (by decide)

/-- The distinct duplicated values of a list are fewer than the
difference between its length and its number of distinct values. -/
theorem dup_values_length_le (vs : List String) :
    (vs.dedup.filter (fun v => decide (1 < vs.count v))).length +
      vs.dedup.length ≤ vs.length := by
  classical
  have hnd : (vs.dedup.filter (fun v => decide (1 < vs.count v))).Nodup :=
    (List.nodup_dedup vs).filter _
  have h2 : (vs.dedup.filter (fun v => decide (1 < vs.count v))).length
      = (vs.toFinset.filter (fun v => 1 < vs.count v)).card := by
    rw [← List.toFinset_card_of_nodup hnd]
    congr 1
    rw [List.toFinset_filter]
    have e1 : vs.dedup.toFinset = vs.toFinset := by
      ext a
      simp
    rw [e1]
    exact Finset.filter_congr (by intro a _; simp)
  have h3 : vs.dedup.length = vs.toFinset.card := (List.card_toFinset vs).symm
  rw [h2, h3]
  have hsum : vs.length = ∑ a ∈ vs.toFinset, vs.count a := by
    have h := Multiset.toFinset_sum_count_eq (vs : Multiset String)
    rw [Multiset.coe_card] at h
    rw [← h]
    exact Finset.sum_congr rfl (fun a _ => Multiset.coe_count a vs)
  rw [hsum]
  have hle : ∀ a ∈ vs.toFinset,
      (if 1 < vs.count a then 1 else 0) + 1 ≤ vs.count a := by
    intro a ha
    have hpos : 0 < vs.count a := List.count_pos_iff.2 (List.mem_toFinset.1 ha)
    split <;> omega
  calc (vs.toFinset.filter (fun v => 1 < vs.count v)).card + vs.toFinset.card
      = ∑ a ∈ vs.toFinset, ((if 1 < vs.count a then 1 else 0) + 1) := by
        rw [Finset.sum_add_distrib, Finset.sum_boole, Finset.sum_const,
          smul_eq_mul, mul_one, Nat.cast_id]
    _ ≤ ∑ a ∈ vs.toFinset, vs.count a := Finset.sum_le_sum hle

/-- C7, counterexample: with three rows carrying the same BMN, the
report lists that one value while `rows_with_BMN - unique_BMNs = 2`. -/
theorem duplicate_report_count_mismatch :
    (duplicateBmns tripleRows).length = 1 ∧
    (bmnValues tripleRows).length - (bmnValues tripleRows).dedup.length = 2 ∧
    (duplicateBmns tripleRows).length ≠
      (bmnValues tripleRows).length - (bmnValues tripleRows).dedup.length := by
  refine ⟨?_, ?_, ?_⟩ <;> decide

/-- C7, amended: the duplicate report lists exactly the distinct BMN
values occurring more than once; its count is therefore bounded by
`rows_with_BMN - unique_BMNs` but not equal to it in general. -/
theorem duplicate_report (rows : List Row) :
    (∀ v, v ∈ duplicateBmns rows ↔
      v ∈ bmnValues rows ∧ 1 < (bmnValues rows).count v) ∧
    (duplicateBmns rows).length + (bmnValues rows).dedup.length ≤
      (bmnValues rows).length := by
  constructor
  · intro v
    unfold duplicateBmns
    rw [List.mem_filter, List.mem_dedup]
    simp
  · exact dup_values_length_le (bmnValues rows)

/-- C7 witness: the characterisation of the report applied at the
three-duplicate fixture. -/
theorem duplicate_report_instance :
    "a" ∈ duplicateBmns tripleRows ↔
      "a" ∈ bmnValues tripleRows ∧ 1 < (bmnValues tripleRows).count "a" :=
  (duplicate_report tripleRows).1 "a"

/-- A restricted-classified call returns no success, the extended
restricted bucket, and no file writes. -/
theorem processSingleBmn_restricted (fetch : String → FetchResult)
    (dlOk : String → Bool) (rs : List Retailer) (item : Item) (b : Buckets)
    (assets : List ApiAsset) (hf : fetch item.bmn = .ok assets)
    (hr : assets.any (fun a => a.assetState == "Restricted") = true) :
    processSingleBmn fetch dlOk rs item b =
      (false, { b with restricted := b.restricted ++ [item.bmn] }, []) := by
  have hne : assets.isEmpty = false := by
    cases assets with
    | nil => simp at hr
    | cons x l => rfl
  simp only [processSingleBmn]
  rw [hf]
  simp [hne, hr]

/-- The restricted bucket of one call is extended exactly under the
restricted branch condition. -/
theorem processSingleBmn_restricted_eq (fetch : String → FetchResult)
    (dlOk : String → Bool) (rs : List Retailer) (item : Item) (b : Buckets) :
    (processSingleBmn fetch dlOk rs item b).2.1.restricted =
      b.restricted ++
        (if restrictedOutcome fetch item = true then [item.bmn] else []) := by
  simp only [processSingleBmn]
  cases hf : fetch item.bmn with
  | httpError status title =>
    unfold restrictedOutcome
    rw [hf]
    simp [apply_ite (fun p : Bool × Buckets × List FileWrite =>
      p.2.1.restricted)]
  | netError =>
    unfold restrictedOutcome
    rw [hf]
    simp
  | ok assets =>
    unfold restrictedOutcome
    rw [hf]
    by_cases he : assets.isEmpty = true
    · simp [he]
    · simp only [Bool.not_eq_true] at he
      by_cases hr : assets.any (fun a => a.assetState == "Restricted") = true
      · simp [he, hr]
      · simp only [Bool.not_eq_true] at hr
        by_cases hv :
            (assets.filter (fun a => a.assetState == "Current")).isEmpty = true
        · simp [he, hr, hv]
        · simp only [Bool.not_eq_true] at hv
          simp [he, hr, hv]

/-- The success flag and the files written by one call do not depend on
the incoming buckets. -/
theorem processSingleBmn_indep (fetch : String → FetchResult)
    (dlOk : String → Bool) (rs : List Retailer) (item : Item)
    (b b' : Buckets) :
    (processSingleBmn fetch dlOk rs item b).1 =
      (processSingleBmn fetch dlOk rs item b').1 ∧
    (processSingleBmn fetch dlOk rs item b).2.2 =
      (processSingleBmn fetch dlOk rs item b').2.2 := by
  simp only [processSingleBmn]
  cases hf : fetch item.bmn with
  | httpError status title =>
    refine ⟨?_, ?_⟩ <;>
      simp [apply_ite (fun p : Bool × Buckets × List FileWrite => p.1),
        apply_ite (fun p : Bool × Buckets × List FileWrite => p.2.2)]
  | netError => simp
  | ok assets =>
    by_cases he : assets.isEmpty = true
    · simp [he]
    · simp only [Bool.not_eq_true] at he
      by_cases hr : assets.any (fun a => a.assetState == "Restricted") = true
      · simp [he, hr]
      · simp only [Bool.not_eq_true] at hr
        by_cases hv :
            (assets.filter (fun a => a.assetState == "Current")).isEmpty = true
        · simp [he, hr, hv]
        · simp only [Bool.not_eq_true] at hv
          simp [he, hr, hv]

/-- Every trace entry of the batch loop corresponds to an input item,
with the success flag and files of that item's call. -/
theorem runLoop_processed_mem (fetch : String → FetchResult)
    (dlOk : String → Bool) (rs : List Retailer) (flag : Nat → Bool)
    (ls : List Item) :
    ∀ (i : Nat) (st : RunState),
      ∀ e ∈ (runLoop fetch dlOk rs flag i ls st).processed,
        e ∈ st.processed ∨
        ∃ it ∈ ls, e.bmn = it.bmn ∧
          e.succeeded = (processSingleBmn fetch dlOk rs it ⟨[], []⟩).1 ∧
          e.files = (processSingleBmn fetch dlOk rs it ⟨[], []⟩).2.2 := by
  induction ls with
  | nil => intro i st e he; exact Or.inl he
  | cons it rest ih =>
    intro i st e he
    rw [runLoop] at he
    split at he
    · exact Or.inl he
    · rcases ih (i + 1) _ e he with hin | ⟨it', hit', heq⟩
      · simp only [List.mem_append, List.mem_singleton] at hin
        rcases hin with hin | hin
        · exact Or.inl hin
        · subst hin
          refine Or.inr ⟨it, List.mem_cons_self it rest, rfl, ?_, ?_⟩
          · exact (processSingleBmn_indep fetch dlOk rs it st.buckets ⟨[], []⟩).1
          · exact (processSingleBmn_indep fetch dlOk rs it st.buckets ⟨[], []⟩).2
      · exact Or.inr ⟨it', List.mem_cons_of_mem _ hit', heq⟩

/-- With the running flag always observed true, the final restricted
bucket is the restricted-classified items' BMNs in input order. -/
theorem runLoop_restricted (fetch : String → FetchResult)
    (dlOk : String → Bool) (rs : List Retailer) (ls : List Item) :
    ∀ (i : Nat) (st : RunState),
      (runLoop fetch dlOk rs (fun _ => true) i ls st).buckets.restricted =
        st.buckets.restricted ++
          (ls.filter (restrictedOutcome fetch)).map Item.bmn := by
  induction ls with
  | nil => intro i st; simp [runLoop]
  | cons it rest ih =>
    intro i st
    rw [runLoop]
    split
    · rename_i h
      simp at h
    · rw [ih]
      by_cases h : restrictedOutcome fetch it = true
      · rw [List.filter_cons_of_pos h]
        simp only [List.map_cons]
        rw [processSingleBmn_restricted_eq fetch dlOk rs it st.buckets,
          if_pos h]
        simp
      · rw [List.filter_cons_of_neg (by simp [h])]
        rw [processSingleBmn_restricted_eq fetch dlOk rs it st.buckets,
          if_neg h]
        simp

/-- C2: a product whose fetched asset list contains a `Restricted`-state
asset is counted exactly once in the restricted bucket over a whole run
(over items with distinct BMNs), its per-item call reports no success,
and no file is written for it — regardless of what other assets exist. -/
theorem restriction_short_circuit (fetch : String → FetchResult)
    (dlOk : String → Bool) (retailers : List Retailer) (items : List Item)
    (item : Item) (assets : List ApiAsset)
    (hnd : (items.map Item.bmn).Nodup) (hmem : item ∈ items)
    (hf : fetch item.bmn = .ok assets)
    (hr : ∃ a ∈ assets, a.assetState = "Restricted") :
    ((processAllItems fetch dlOk retailers items
        (fun _ => true)).buckets.restricted.count item.bmn = 1) ∧
    (∀ e ∈ (processAllItems fetch dlOk retailers items
        (fun _ => true)).processed,
      e.bmn = item.bmn → e.succeeded = false ∧ e.files = []) := by
  have hany : assets.any (fun a => a.assetState == "Restricted") = true := by
    obtain ⟨a, ha, hs⟩ := hr
    exact List.any_eq_true.2 ⟨a, ha, by simp [hs]⟩
  have hne : assets.isEmpty = false := by
    obtain ⟨a, ha, _⟩ := hr
    cases assets with
    | nil => simp at ha
    | cons x l => rfl
  have hout : restrictedOutcome fetch item = true := by
    unfold restrictedOutcome
    rw [hf]
    simp [hne, hany]
  constructor
  · unfold processAllItems
    rw [runLoop_restricted]
    simp only [List.nil_append]
    have hsubl : ((items.filter (restrictedOutcome fetch)).map Item.bmn).Sublist
        (items.map Item.bmn) := (List.filter_sublist items).map Item.bmn
    have hnd' : ((items.filter (restrictedOutcome fetch)).map Item.bmn).Nodup :=
      hnd.sublist hsubl
    have hmem' : item.bmn ∈ (items.filter (restrictedOutcome fetch)).map
        Item.bmn :=
      List.mem_map_of_mem Item.bmn (List.mem_filter.2 ⟨hmem, hout⟩)
    exact List.count_eq_one_of_mem hnd' hmem'
  · intro e he hbmn
    rcases runLoop_processed_mem fetch dlOk retailers (fun _ => true) items 1 _
        e he with hin | ⟨it', hit', hb, hs, hfl⟩
    · simp at hin
    · have : it' = item :=
        List.inj_on_of_nodup_map hnd hit' hmem (by rw [← hb]; exact hbmn)
      subst this
      rw [processSingleBmn_restricted fetch dlOk retailers it' ⟨[], []⟩ assets
        hf hany] at hs hfl
      exact ⟨hs, hfl⟩

/-- C2 witness: one item whose response holds a `Current` asset next to
a `Restricted` one — counted once in the restricted bucket, no success,
no files. -/
theorem restriction_short_circuit_instance :
    ((processAllItems (fun _ => .ok [enHero, restrictedAsset]) (fun _ => true)
        [.sobeys] [⟨"100", some "A1", none⟩]
        (fun _ => true)).buckets.restricted.count "100" = 1) ∧
    (∀ e ∈ (processAllItems (fun _ => .ok [enHero, restrictedAsset])
        (fun _ => true) [.sobeys] [⟨"100", some "A1", none⟩]
        (fun _ => true)).processed,
      e.bmn = "100" → e.succeeded = false ∧ e.files = []) :=
  restriction_short_circuit (fun _ => .ok [enHero, restrictedAsset])
    (fun _ => true) [.sobeys] [⟨"100", some "A1", none⟩]
    ⟨"100", some "A1", none⟩ [enHero, restrictedAsset]
    (by decide) (by decide) rfl (by decide)

/-- C5, counterexample: a processed item whose assets are all in a
non-`Current`, non-`Restricted` state is not a success, encounters no
restriction, and still lands in neither collected bucket — so no third
`NotFound/NoAsset` bucket covers it, and no succeeded bucket exists. -/
theorem outcome_buckets_missing_case :
    (processAllItems (fun _ => .ok [archivedAsset]) (fun _ => true) [.sobeys]
        [⟨"7", some "A", none⟩] (fun _ => true)).processed =
      [⟨1, "7", false, []⟩] ∧
    (processAllItems (fun _ => .ok [archivedAsset]) (fun _ => true) [.sobeys]
        [⟨"7", some "A", none⟩] (fun _ => true)).buckets = ⟨[], []⟩ := by
  constructor
  · rfl
  · rfl

/-- C5, amended: one `process_single_bmn` call appends the item's BMN to
at most one of the two collected buckets (`not_in_mojo_bmns`,
`restricted_bmns`), never to both, and a successful item extends
neither; there is no collected succeeded bucket, and items failing for
other reasons extend neither list. -/
theorem outcome_buckets (fetch : String → FetchResult)
    (dlOk : String → Bool) (rs : List Retailer) (item : Item) (b : Buckets) :
    ((processSingleBmn fetch dlOk rs item b).2.1.notInMojo = b.notInMojo ∨
      (processSingleBmn fetch dlOk rs item b).2.1.notInMojo =
        b.notInMojo ++ [item.bmn]) ∧
    ((processSingleBmn fetch dlOk rs item b).2.1.restricted = b.restricted ∨
      (processSingleBmn fetch dlOk rs item b).2.1.restricted =
        b.restricted ++ [item.bmn]) ∧
    ¬((processSingleBmn fetch dlOk rs item b).2.1.notInMojo =
        b.notInMojo ++ [item.bmn] ∧
      (processSingleBmn fetch dlOk rs item b).2.1.restricted =
        b.restricted ++ [item.bmn]) ∧
    ((processSingleBmn fetch dlOk rs item b).1 = true →
      (processSingleBmn fetch dlOk rs item b).2.1 = b) := by
  simp only [processSingleBmn]
  cases hf : fetch item.bmn with
  | httpError status title =>
    cases title with
    | none =>
      refine ⟨Or.inl (by simp), Or.inl (by simp), ?_, by simp⟩
      rintro ⟨h1, h2⟩
      simp at h2
    | some t =>
      by_cases hnf : status = 500 ∧ strContains "NotFound" t = true
      · refine ⟨Or.inr (by simp [hnf]), Or.inl (by simp [hnf]), ?_,
          by simp [hnf]⟩
        rintro ⟨h1, h2⟩
        simp [hnf] at h2
      · refine ⟨Or.inl (by simp [hnf]), Or.inl (by simp [hnf]), ?_,
          by simp [hnf]⟩
        rintro ⟨h1, h2⟩
        simp [hnf] at h2
  | netError =>
    refine ⟨Or.inl (by simp), Or.inl (by simp), ?_, by simp⟩
    rintro ⟨h1, h2⟩
    simp at h2
  | ok assets =>
    by_cases he : assets.isEmpty = true
    · refine ⟨Or.inr (by simp [he]), Or.inl (by simp [he]), ?_,
        by simp [he]⟩
      rintro ⟨h1, h2⟩
      simp [he] at h2
    · simp only [Bool.not_eq_true] at he
      by_cases hr : assets.any (fun a => a.assetState == "Restricted") = true
      · refine ⟨Or.inl (by simp [he, hr]), Or.inr (by simp [he, hr]), ?_,
          by simp [he, hr]⟩
        rintro ⟨h1, h2⟩
        simp [he, hr] at h1
      · simp only [Bool.not_eq_true] at hr
        by_cases hv : (assets.filter
            (fun a => a.assetState == "Current")).isEmpty = true
        · refine ⟨Or.inl (by simp [he, hr, hv]), Or.inl (by simp [he, hr, hv]),
            ?_, by simp [he, hr, hv]⟩
          rintro ⟨h1, h2⟩
          simp [he, hr, hv] at h1
        · simp only [Bool.not_eq_true] at hv
          refine ⟨Or.inl (by simp [he, hr, hv]), Or.inl (by simp [he, hr, hv]),
            ?_, by simp [he, hr, hv]⟩
          rintro ⟨h1, h2⟩
          simp [he, hr, hv] at h1

/-- C5 witness: the at-most-one-bucket property at a network-error
call. -/
theorem outcome_buckets_instance :
    ((processSingleBmn (fun _ => .netError) (fun _ => true) [.sobeys]
        ⟨"7", some "A", none⟩ ⟨[], []⟩).2.1.notInMojo = [] ∨
      (processSingleBmn (fun _ => .netError) (fun _ => true) [.sobeys]
        ⟨"7", some "A", none⟩ ⟨[], []⟩).2.1.notInMojo = [] ++ ["7"]) ∧
    ((processSingleBmn (fun _ => .netError) (fun _ => true) [.sobeys]
        ⟨"7", some "A", none⟩ ⟨[], []⟩).2.1.restricted = [] ∨
      (processSingleBmn (fun _ => .netError) (fun _ => true) [.sobeys]
        ⟨"7", some "A", none⟩ ⟨[], []⟩).2.1.restricted = [] ++ ["7"]) ∧
    ¬((processSingleBmn (fun _ => .netError) (fun _ => true) [.sobeys]
        ⟨"7", some "A", none⟩ ⟨[], []⟩).2.1.notInMojo = [] ++ ["7"] ∧
      (processSingleBmn (fun _ => .netError) (fun _ => true) [.sobeys]
        ⟨"7", some "A", none⟩ ⟨[], []⟩).2.1.restricted = [] ++ ["7"]) ∧
    ((processSingleBmn (fun _ => .netError) (fun _ => true) [.sobeys]
        ⟨"7", some "A", none⟩ ⟨[], []⟩).1 = true →
      (processSingleBmn (fun _ => .netError) (fun _ => true) [.sobeys]
        ⟨"7", some "A", none⟩ ⟨[], []⟩).2.1 = ⟨[], []⟩) :=
  outcome_buckets (fun _ => .netError) (fun _ => true) [.sobeys]
    ⟨"7", some "A", none⟩ ⟨[], []⟩

/-- The batch loop is insensitive to `totalItems`, which it never
updates. -/
theorem runLoop_total (fetch : String → FetchResult) (dlOk : String → Bool)
    (rs : List Retailer) (flag : Nat → Bool) (ls : List Item) :
    ∀ (i : Nat) (st : RunState) (t : Nat),
      runLoop fetch dlOk rs flag i ls { st with totalItems := t } =
        { runLoop fetch dlOk rs flag i ls st with totalItems := t } := by
  induction ls with
  | nil => intro i st t; rw [runLoop, runLoop]
  | cons it rest ih =>
    intro i st t
    rw [runLoop, runLoop]
    by_cases h : (!(flag i)) = true
    · rw [if_pos h, if_pos h]
    · rw [if_neg h, if_neg h]
      exact ih (i + 1)
        { st with
          completedItems := i
          buckets := (processSingleBmn fetch dlOk rs it st.buckets).2.1
          files := st.files ++ (processSingleBmn fetch dlOk rs it st.buckets).2.2
          processed := st.processed ++
            [⟨i, it.bmn, (processSingleBmn fetch dlOk rs it st.buckets).1,
              (processSingleBmn fetch dlOk rs it st.buckets).2.2⟩] } t

/-- With the flag always observed true, the completed counter ends at
the index of the last processed item. -/
theorem runLoop_completed (fetch : String → FetchResult)
    (dlOk : String → Bool) (rs : List Retailer) (ls : List Item) :
    ∀ (i : Nat) (st : RunState),
      (runLoop fetch dlOk rs (fun _ => true) i ls st).completedItems =
        if ls.isEmpty then st.completedItems else i + ls.length - 1 := by
  induction ls with
  | nil => intro i st; rw [runLoop]; rfl
  | cons it rest ih =>
    intro i st
    rw [runLoop]
    split
    · rename_i h
      simp at h
    · rw [ih]
      cases rest with
      | nil => simp
      | cons x xs =>
        simp only [List.isEmpty_cons, List.length_cons]
        rw [if_neg (by simp), if_neg (by simp)]
        omega

/-- A run whose flag observations are true up to iteration `M` and false
afterwards behaves like an uninterrupted run over the first items only. -/
theorem runLoop_stopCut (fetch : String → FetchResult) (dlOk : String → Bool)
    (rs : List Retailer) (M : Nat) (ls : List Item) :
    ∀ (i : Nat) (st : RunState),
      runLoop fetch dlOk rs (fun j => decide (j ≤ M)) i ls st =
        runLoop fetch dlOk rs (fun _ => true) i (ls.take (M + 1 - i)) st := by
  induction ls with
  | nil => intro i st; rw [List.take_nil, runLoop, runLoop]
  | cons it rest ih =>
    intro i st
    by_cases h : i ≤ M
    · have h1 : M + 1 - i = (M - i) + 1 := by omega
      rw [h1, List.take_succ_cons, runLoop, runLoop]
      rw [if_neg (by simp [h]), if_neg (by simp)]
      rw [ih]
      have h2 : M + 1 - (i + 1) = M - i := by omega
      rw [h2]
    · have h0 : M + 1 - i = 0 := by omega
      rw [h0, List.take_zero, runLoop, runLoop]
      rw [if_pos (by simp [h])]

/-- C9: a stop request on a running batch clears the running flag, and a
run whose flag is observed true for the first `M` of `N` iterations and
false at iteration `M + 1` ends with `completed = M` and with exactly
the trace, files and buckets of an uninterrupted run over the first `M`
items — items after the `M`-th are neither processed nor written. -/
theorem cancellation (fetch : String → FetchResult) (dlOk : String → Bool)
    (rs : List Retailer) (items : List Item) (M : Nat)
    (hM : M < items.length) :
    stopExecution true = (false, true) ∧
    (processAllItems fetch dlOk rs items
      (fun j => decide (j ≤ M))).completedItems = M ∧
    (processAllItems fetch dlOk rs items (fun j => decide (j ≤ M))).processed =
      (processAllItems fetch dlOk rs (items.take M) (fun _ => true)).processed ∧
    (processAllItems fetch dlOk rs items (fun j => decide (j ≤ M))).files =
      (processAllItems fetch dlOk rs (items.take M) (fun _ => true)).files ∧
    (processAllItems fetch dlOk rs items (fun j => decide (j ≤ M))).buckets =
      (processAllItems fetch dlOk rs (items.take M) (fun _ => true)).buckets
    := by
  have hkey : processAllItems fetch dlOk rs items (fun j => decide (j ≤ M)) =
      { processAllItems fetch dlOk rs (items.take M) (fun _ => true) with
        totalItems := items.length } := by
    unfold processAllItems
    rw [runLoop_stopCut]
    have h1 : M + 1 - 1 = M := by omega
    rw [h1]
    exact runLoop_total fetch dlOk rs (fun _ => true) (items.take M) 1
      { totalItems := (items.take M).length, completedItems := 0,
        buckets := ⟨[], []⟩, files := [], processed := [] } items.length
  have hlen : (items.take M).length = M := by
    rw [List.length_take]
    omega
  refine ⟨rfl, ?_, by rw [hkey], by rw [hkey], by rw [hkey]⟩
  rw [hkey]
  show (processAllItems fetch dlOk rs (items.take M)
    (fun _ => true)).completedItems = M
  unfold processAllItems
  rw [runLoop_completed]
  by_cases hM0 : M = 0
  · subst hM0
    rw [List.take_zero]
    rfl
  · rw [if_neg]
    · rw [hlen]
      omega
    · intro hc
      have : items.take M = [] := by
        cases hl : items.take M with
        | nil => rfl
        | cons x xs => rw [hl] at hc; simp at hc
      rw [this] at hlen
      simp at hlen
      omega

/-- C9 witness: stopping after one completed item of three. -/
theorem cancellation_instance :
    stopExecution true = (false, true) ∧
    (processAllItems (fun _ => .netError) (fun _ => true) [.sobeys]
      itemsFixture (fun j => decide (j ≤ 1))).completedItems = 1 ∧
    (processAllItems (fun _ => .netError) (fun _ => true) [.sobeys]
        itemsFixture (fun j => decide (j ≤ 1))).processed =
      (processAllItems (fun _ => .netError) (fun _ => true) [.sobeys]
        (itemsFixture.take 1) (fun _ => true)).processed ∧
    (processAllItems (fun _ => .netError) (fun _ => true) [.sobeys]
        itemsFixture (fun j => decide (j ≤ 1))).files =
      (processAllItems (fun _ => .netError) (fun _ => true) [.sobeys]
        (itemsFixture.take 1) (fun _ => true)).files ∧
    (processAllItems (fun _ => .netError) (fun _ => true) [.sobeys]
        itemsFixture (fun j => decide (j ≤ 1))).buckets =
      (processAllItems (fun _ => .netError) (fun _ => true) [.sobeys]
        (itemsFixture.take 1) (fun _ => true)).buckets :=
  cancellation (fun _ => .netError) (fun _ => true) [.sobeys] itemsFixture 1
    (by decide)

/-- C10: a single-entry start request carrying only a BMN is accepted
without any required-column validation — the missing save identifier is
only detected per retailer during processing, where that retailer is
skipped and produces no downloads. -/
theorem single_entry_bypass (bmn : String) (hb : bmn ≠ "")
    (articleId gtin : Option String) :
    executeSingleEntry false (some bmn) articleId gtin =
      .ok [{ bmn := bmn, articleId := articleId, gtin := gtin }] ∧
    (∀ (dlOk : String → Bool) (r : Retailer) (validAssets : List ApiAsset),
      truthy (saveIdField r ⟨bmn, articleId, gtin⟩) = false →
      processItemForRetailer dlOk r ⟨bmn, articleId, gtin⟩ validAssets =
        (false, [])) := by
  constructor
  · unfold executeSingleEntry
    rw [if_neg (by simp)]
    rw [if_neg (by simp [truthy, hb])]
    rfl
  · intro dlOk r validAssets hsv
    unfold processItemForRetailer
    rw [if_pos (by simp [hsv])]

/-- C10 witness: a BMN-only single entry is accepted and Sobeys is
skipped with no downloads. -/
theorem single_entry_bypass_instance :
    executeSingleEntry false (some "100") none none =
      .ok [{ bmn := "100", articleId := none, gtin := none }] ∧
    processItemForRetailer (fun _ => true) .sobeys ⟨"100", none, none⟩
      [enHero] = (false, []) :=
  ⟨(single_entry_bypass "100" (by decide) none none).1,
   (single_entry_bypass "100" (by decide) none none).2 (fun _ => true) .sobeys
     [enHero] (by decide)⟩

/-- One carousel step keeps the downloaded-priority set duplicate-free. -/
theorem carouselStep_nodup (dlOk : Bool) (st : CarouselState)
    (it : CarouselItem) (h : st.downloadedPriorities.Nodup) :
    ((carouselStep dlOk st it).downloadedPriorities).Nodup := by
  obtain ⟨prio, ret⟩ := it
  cases prio with
  | none => exact h
  | some p =>
    simp only [carouselStep]
    by_cases hs : (amazonOk ret &&
        !(st.downloadedPriorities.contains p)) = true
    · rw [if_neg (by rw [hs]; simp)]
      by_cases hd : dlOk = true
      · rw [if_pos hd]
        have hp : p ∉ st.downloadedPriorities := by
          have h2 := (Bool.and_eq_true _ _ ▸ hs).2
          simpa using h2
        simp [List.nodup_append, h, hp]
      · rw [if_neg hd]
        exact h
    · have hs' : (amazonOk ret &&
          !(st.downloadedPriorities.contains p)) = false :=
        Bool.not_eq_true _ ▸ hs
      rw [if_pos (by rw [hs']; decide)]
      exact h

/-- The carousel loop never records the same priority twice. -/
theorem carouselLoop_nodup (dlOk runningAt : Nat → Bool)
    (items : List CarouselItem) :
    ∀ (i : Nat) (st : CarouselState), st.downloadedPriorities.Nodup →
      ((carouselLoop dlOk runningAt i items st).downloadedPriorities).Nodup
    := by
  induction items with
  | nil => intro i st h; rw [carouselLoop]; exact h
  | cons it rest ih =>
    intro i st h
    rw [carouselLoop]
    split
    · exact h
    · exact ih (i + 1) _ (carouselStep_nodup _ _ _ h)

/-- Every priority the carousel loop records comes from an
Amazon-eligible grid item with that carousel priority. -/
theorem carouselLoop_sound (dlOk runningAt : Nat → Bool)
    (items : List CarouselItem) :
    ∀ (i : Nat) (st : CarouselState),
      ∀ p ∈ (carouselLoop dlOk runningAt i items st).downloadedPriorities,
        p ∈ st.downloadedPriorities ∨
        ∃ it ∈ items, it.priority = some p ∧ amazonOk it.retailer = true
    := by
  induction items with
  | nil => intro i st p hp; rw [carouselLoop] at hp; exact Or.inl hp
  | cons it rest ih =>
    intro i st p hp
    rw [carouselLoop] at hp
    split at hp
    · exact Or.inl hp
    · rcases ih (i + 1) _ p hp with hin | ⟨it', hmem, hpr⟩
      · obtain ⟨prio, ret⟩ := it
        cases prio with
        | none => exact Or.inl hin
        | some q =>
          simp only [carouselStep] at hin
          by_cases hs : (amazonOk ret &&
              !(st.downloadedPriorities.contains q)) = true
          · rw [if_neg (by rw [hs]; simp)] at hin
            by_cases hd : dlOk i = true
            · rw [if_pos hd] at hin
              simp only [List.mem_append, List.mem_singleton] at hin
              rcases hin with hin | rfl
              · exact Or.inl hin
              · exact Or.inr ⟨⟨some p, ret⟩,
                  List.mem_cons_self _ rest, rfl,
                  (Bool.and_eq_true _ _ ▸ hs).1⟩
            · rw [if_neg hd] at hin
              exact Or.inl hin
          · have hs' : (amazonOk ret &&
                !(st.downloadedPriorities.contains q)) = false :=
              Bool.not_eq_true _ ▸ hs
            rw [if_pos (by rw [hs']; decide)] at hin
            exact Or.inl hin
      · exact Or.inr ⟨it', List.mem_cons_of_mem _ hmem, hpr⟩

/-- Over all-Amazon candidates with successful downloads, the carousel
loop records exactly the first occurrence of each priority and its
running maximum folds over all priorities. -/
theorem carouselLoop_run (items : List CarouselItem) :
    ∀ (ps : List Nat) (i : Nat) (st : CarouselState),
      items.map CarouselItem.priority = ps.map some →
      (∀ it ∈ items, amazonOk it.retailer = true) →
      (∀ q ∈ st.downloadedPriorities, q ≤ st.maxSequenceNum) →
      (carouselLoop (fun _ => true) (fun _ => true) i
          items st).downloadedPriorities =
        st.downloadedPriorities ++ specFirstSeen st.downloadedPriorities ps ∧
      (carouselLoop (fun _ => true) (fun _ => true) i
          items st).maxSequenceNum = ps.foldl max st.maxSequenceNum := by
  induction items with
  | nil =>
    intro ps i st hmap hret hinv
    cases ps with
    | nil => rw [carouselLoop]; simp [specFirstSeen]
    | cons q qs => simp at hmap
  | cons it rest ih =>
    intro ps i st hmap hret hinv
    obtain ⟨prio, ret⟩ := it
    cases ps with
    | nil => simp at hmap
    | cons q qs =>
      simp only [List.map_cons, List.cons.injEq] at hmap
      obtain ⟨hpr, hrest⟩ := hmap
      have hpr' : prio = some q := hpr
      subst hpr'
      have hama : amazonOk ret = true := by
        have := hret ⟨some q, ret⟩ (List.mem_cons_self _ _)
        simpa using this
      rw [carouselLoop, if_neg (by simp)]
      simp only [carouselStep, hama, Bool.true_and]
      by_cases hq : st.downloadedPriorities.contains q = true
      · have hqm : q ∈ st.downloadedPriorities := by simpa using hq
        rw [if_pos (by rw [hq]; decide)]
        have hmax : max st.maxSequenceNum q = st.maxSequenceNum :=
          Nat.max_eq_left (hinv q hqm)
        have hspec : specFirstSeen st.downloadedPriorities (q :: qs) =
            specFirstSeen st.downloadedPriorities qs := by
          rw [specFirstSeen, if_pos hqm]
        rw [hspec]
        have hih := ih qs (i + 1) st hrest
          (fun x hx => hret x (List.mem_cons_of_mem _ hx)) hinv
        refine ⟨hih.1, ?_⟩
        rw [hih.2]
        simp only [List.foldl_cons, hmax]
      · have hqm : q ∉ st.downloadedPriorities := by simpa using hq
        have hq' : st.downloadedPriorities.contains q = false :=
          Bool.not_eq_true _ ▸ hq
        rw [if_neg (by rw [hq']; simp)]
        rw [if_pos trivial]
        have hinv' : ∀ r ∈ st.downloadedPriorities ++ [q],
            r ≤ max st.maxSequenceNum q := by
          intro r hr
          simp only [List.mem_append, List.mem_singleton] at hr
          rcases hr with hr | rfl
          · exact le_trans (hinv r hr) (Nat.le_max_left _ _)
          · exact Nat.le_max_right _ _
        have hih := ih qs (i + 1)
          { downloadsSucceeded := st.downloadsSucceeded + 1
            maxSequenceNum := max st.maxSequenceNum q
            downloadedPriorities := st.downloadedPriorities ++ [q] } hrest
          (fun x hx => hret x (List.mem_cons_of_mem _ hx)) hinv'
        refine ⟨?_, ?_⟩
        · rw [hih.1]
          rw [specFirstSeen, if_neg hqm]
          simp
        · rw [hih.2]
          simp only [List.foldl_cons]

/-- C3: with numeric priorities on every candidate, all candidates
Amazon-eligible and downloads succeeding, the kept priorities are
exactly the first occurrence of each priority value (later duplicates
dropped), the auxiliary nutrition asset gets sequence number
`max priority + 1`; and in general the kept set never holds a priority
twice and every kept priority comes from an Amazon-eligible candidate —
a non-Amazon-tagged candidate is never kept. -/
theorem carousel_policy (items : List CarouselItem) (ps : List Nat)
    (hps : items.map CarouselItem.priority = ps.map some)
    (hret : ∀ it ∈ items, amazonOk it.retailer = true) :
    (downloadCarouselImages (fun _ => true) (fun _ => true)
        items).downloadedPriorities = specFirstSeen [] ps ∧
    (downloadCarouselImages (fun _ => true) (fun _ => true)
        items).maxSequenceNum = ps.foldl max 0 ∧
    nutritionSequence (downloadCarouselImages (fun _ => true) (fun _ => true)
        items) = ps.foldl max 0 + 1 ∧
    (∀ (dlOk runningAt : Nat → Bool) (items2 : List CarouselItem),
      ((downloadCarouselImages dlOk runningAt
          items2).downloadedPriorities).Nodup ∧
      ∀ p ∈ (downloadCarouselImages dlOk runningAt
          items2).downloadedPriorities,
        ∃ it ∈ items2, it.priority = some p ∧ amazonOk it.retailer = true)
    := by
  have hdl : downloadCarouselImages (fun _ => true) (fun _ => true) items =
      carouselLoop (fun _ => true) (fun _ => true) 1 items ⟨0, 0, []⟩ := by
    unfold downloadCarouselImages
    rw [if_neg (by simp)]
  have hrun := carouselLoop_run items ps 1 ⟨0, 0, []⟩ hps hret (by simp)
  refine ⟨?_, ?_, ?_, ?_⟩
  · rw [hdl, hrun.1]
    simp
  · rw [hdl, hrun.2]
  · unfold nutritionSequence
    rw [hdl, hrun.2]
  · intro dlOk runningAt items2
    constructor
    · unfold downloadCarouselImages
      split
      · simp
      · exact carouselLoop_nodup dlOk runningAt items2 1 ⟨0, 0, []⟩ (by simp)
    · intro p hp
      unfold downloadCarouselImages at hp
      split at hp
      · simp at hp
      · rcases carouselLoop_sound dlOk runningAt items2 1 ⟨0, 0, []⟩ p hp
          with hin | h
        · simp at hin
        · exact h

/-- C3 witness: the spec example — priorities `[1,1,3,2]` keep `1,3,2`
(each once, duplicate dropped) and the nutrition sequence is `4`. -/
theorem carousel_policy_example :
    (downloadCarouselImages (fun _ => true) (fun _ => true)
        carouselFixture).downloadedPriorities = [1, 3, 2] ∧
    nutritionSequence (downloadCarouselImages (fun _ => true) (fun _ => true)
        carouselFixture) = 4 := by
  have h := carousel_policy carouselFixture [1, 1, 3, 2] (by decide)
    (by decide)
  refine ⟨?_, ?_⟩
  · rw [h.1]
    decide
  · rw [h.2.2.1]
    decide

/-- Distinct ASINs resolve to distinct destination paths: the ASIN is
the only varying token of the path template. -/
theorem asinDestPath_inj (fp : Option String) (sq : Option Nat)
    {a b : String} (h : asinDestPath a fp sq = asinDestPath b fp sq) :
    a = b := by
  have hd := congrArg String.data h
  cases sq with
  | some n =>
    simp only [asinDestPath, asinFilename, String.data_append,
      List.append_assoc] at hd
    have hlen := congrArg List.length hd
    simp only [List.length_append] at hlen
    have hab : a.data.length = b.data.length := by omega
    have h1 := List.append_cancel_left hd
    have h2 := List.append_cancel_left h1
    exact String.ext (List.append_inj h2 hab).1
  | none =>
    simp only [asinDestPath, asinFilename, String.data_append,
      List.append_assoc] at hd
    have hlen := congrArg List.length hd
    simp only [List.length_append] at hlen
    have hab : a.data.length = b.data.length := by omega
    have h1 := List.append_cancel_left hd
    have h2 := List.append_cancel_left h1
    exact String.ext (List.append_inj h2 hab).1

/-- C8: saving one downloaded payload to `N` marketplace ids produces
exactly `N` writes, all carrying the same single payload, at pairwise
distinct destination paths that differ only in the ASIN token — each
ASIN receives the payload at its templated path. -/
theorem fanout_write_per_asin (content : String) (asins : List String)
    (fp : Option String) (sq : Option Nat) (hnd : asins.Nodup) :
    (saveToAllAsinFolders content asins fp sq).length = asins.length ∧
    (∀ w ∈ saveToAllAsinFolders content asins fp sq, w.content = content) ∧
    ((saveToAllAsinFolders content asins fp sq).map SavedFile.path).Nodup ∧
    (∀ a ∈ asins,
      (⟨asinDestPath a fp sq, content⟩ : SavedFile) ∈
        saveToAllAsinFolders content asins fp sq) := by
  refine ⟨by simp [saveToAllAsinFolders], ?_, ?_, ?_⟩
  · intro w hw
    unfold saveToAllAsinFolders at hw
    obtain ⟨x, _, rfl⟩ := List.mem_map.1 hw
    rfl
  · unfold saveToAllAsinFolders
    rw [List.map_map]
    have hcomp : (SavedFile.path ∘ fun asin =>
        (⟨asinDestPath asin fp sq, content⟩ : SavedFile)) =
        fun asin => asinDestPath asin fp sq := rfl
    rw [hcomp]
    exact hnd.map (fun x y hxy => asinDestPath_inj fp sq hxy)
  · intro a ha
    exact List.mem_map_of_mem _ ha

/-- C8 witness: three marketplace ids receive three distinct writes of
the same payload. -/
theorem fanout_write_per_asin_instance :
    (saveToAllAsinFolders "payload" ["A", "B", "C"] none (some 3)).length =
      3 ∧
    (∀ w ∈ saveToAllAsinFolders "payload" ["A", "B", "C"] none (some 3),
      w.content = "payload") ∧
    ((saveToAllAsinFolders "payload" ["A", "B", "C"] none
        (some 3)).map SavedFile.path).Nodup ∧
    (∀ a ∈ (["A", "B", "C"] : List String),
      (⟨asinDestPath a none (some 3), "payload"⟩ : SavedFile) ∈
        saveToAllAsinFolders "payload" ["A", "B", "C"] none (some 3)) :=
  fanout_write_per_asin "payload" ["A", "B", "C"] none (some 3) (by decide)

end SAM
